import Mathlib

/-!
# MiniBit — verification of the block manager, unchoke manager, peer
message loop and tracker

Shallow embedding of the MiniBit peer-to-peer file sharing system.
The authoritative sources are the Python modules of the repository:

* src/minibit/block_manager.py   (class BlockManager — the variant with
  the peer block map and rarity tracking, the one the specification
  reconciles the system on)
* src/peer/block_manager.py      (the second, divergent BlockManager)
* src/minibit/unchoke_manager.py (class UnchokeManager — rarity variant)
* src/peer/unchoke_manager.py    (class UnchokeManager — statistics variant)
* src/minibit/peer.py            (class Peer, message loop)
* src/minibit/tracker.py         (class Tracker — JSON framing variant)
* src/tracker/tracker.py + src/scripts/start_tracker.py (pickle variant)

Modelling conventions, applied uniformly:

* Bytes are natural numbers, byte strings are lists of naturals.
* A well-formed block id has the textual form base_index; the source
  recovers the numeric index of an id x as int(x.split by underscore,
  last component).  We model such an id as the pair (base, index); the
  numeric sort key used by the source is the second component.
* Python dicts are association lists in insertion order; dict assignment
  replaces in place or appends at the end.
* Python sets are duplicate-free lists; the (unspecified) iteration order
  of a set that arrives from the network is the order of the list, and
  locally constructed sets iterate in the order their elements were added.
* Calls of random.shuffle / random.choice / random.sample are modelled by
  explicit parameters (a permutation of the list, a choice index).
* Wall-clock timestamps (Python floats from time.time) enter the claims
  only through differences compared against whole-second constants; they
  are modelled as integers.
* File input and output is modelled by passing the byte content directly;
  a possible failure of a write is an explicit boolean parameter.
-/

namespace MiniBit

/-- A well-formed MiniBit block id: base file name together with the
numeric index that the source stores as the suffix after the last
underscore of the id string. -/
abbrev BlockId := String × Nat

/-- A block payload: a byte sequence. -/
abbrev Data := List Nat

/-- Peer identifiers are plain strings. -/
abbrev PeerId := String

/-- Lookup in an association list modelling a Python dict (keys kept in
insertion order, at most one entry per key). -/
def alookup {α β : Type} [DecidableEq α] (k : α) : List (α × β) → Option β
  | [] => none
  | (k0, v) :: t => if k0 = k then some v else alookup k t

/-- Python dict assignment: replace the value of an existing key in place,
otherwise append the new key at the end. -/
def dictInsert {α β : Type} [DecidableEq α] (k : α) (v : β) : List (α × β) → List (α × β)
  | [] => [(k, v)]
  | (k0, v0) :: t => if k0 = k then (k0, v) :: t else (k0, v0) :: dictInsert k v t

/-- Python set.add: append the element unless it is already present. -/
def setAdd {α : Type} [DecidableEq α] (s : List α) (a : α) : List α :=
  if a ∈ s then s else s ++ [a]

/-- State of src/minibit/block_manager.py class BlockManager.  The logger,
and the download directory created in the constructor, carry no state the
claims touch and are not represented. -/
structure BlockManager where
  file_name : String
  block_size : Nat
  /-- my_blocks: dict from block id to block data. -/
  my_blocks : List (BlockId × Data)
  total_block_count : Nat
  all_block_ids : List BlockId
  /-- peer_block_map: dict from block id to the set of peers holding it. -/
  peer_block_map : List (BlockId × List PeerId)
deriving Repr, DecidableEq

namespace BlockManager

/-- The constructor of BlockManager (src/minibit/block_manager.py, lines
10-23): empty block store, zero count, empty id list and peer map. -/
def init (file_name : String) (block_size : Nat) : BlockManager :=
  { file_name := file_name
    block_size := block_size
    my_blocks := []
    total_block_count := 0
    all_block_ids := []
    peer_block_map := [] }

/-- The data the i-th sequential read of block_size bytes returns when a
file with content F is read from the start (load_from_file reads the
blocks with consecutive calls of f.read block_size). -/
def fileChunk (F : Data) (block_size i : Nat) : Data :=
  (F.drop (i * block_size)).take block_size

/-- load_from_file (src/minibit/block_manager.py, lines 25-40) on a file
whose base name is base and whose byte content is F: set
total_block_count to the ceiling of size / block_size, fix all_block_ids
as base_0 .. base_(n-1), and store every chunk under its id.  The
FileNotFoundError branch performs no state change and is not modelled
(the file content is given). -/
def load_from_file (bm : BlockManager) (base : String) (F : Data) : BlockManager :=
  let total := (F.length + bm.block_size - 1) / bm.block_size
  let ids : List BlockId := (List.range total).map (fun i => (base, i))
  { bm with
    total_block_count := total
    all_block_ids := ids
    my_blocks := ids.foldl (fun m id => dictInsert id (fileChunk F bm.block_size id.2) m)
      bm.my_blocks }

/-- add_block (src/minibit/block_manager.py, lines 42-49): reject only a
block that is already present, otherwise store the data and report
success.  Returns the boolean result together with the new state. -/
def add_block (bm : BlockManager) (block_id : BlockId) (data : Data) :
    Bool × BlockManager :=
  if (alookup block_id bm.my_blocks).isSome then
    (false, bm)
  else
    (true, { bm with my_blocks := dictInsert block_id data bm.my_blocks })

/-- get_block_data (lines 51-53). -/
def get_block_data (bm : BlockManager) (block_id : BlockId) : Option Data :=
  alookup block_id bm.my_blocks

/-- get_my_blocks (lines 55-57): the set of owned block ids, iterated in
dict order. -/
def get_my_blocks (bm : BlockManager) : List BlockId :=
  bm.my_blocks.map (fun e => e.1)

/-- get_missing_blocks (lines 59-63): empty when all_block_ids is not yet
known, otherwise the set difference all_block_ids minus owned, iterated
in all_block_ids order. -/
def get_missing_blocks (bm : BlockManager) : List BlockId :=
  if bm.all_block_ids = [] then []
  else bm.all_block_ids.filter (fun b => ¬ b ∈ bm.get_my_blocks)

/-- is_complete (lines 65-70).  The source first repairs
total_block_count from all_block_ids when the former is zero and the
latter non-empty (a state mutation inside the predicate), then reports
whether the number of owned blocks is positive and equals the count.
Returned as the boolean together with the possibly repaired state. -/
def is_complete (bm : BlockManager) : Bool × BlockManager :=
  let tc := if bm.total_block_count = 0 ∧ 0 < bm.all_block_ids.length
    then bm.all_block_ids.length else bm.total_block_count
  let bm1 := { bm with total_block_count := tc }
  (decide (0 < bm1.my_blocks.length ∧ bm1.my_blocks.length = tc), bm1)

/-- The comparison passed to the sort in reconstruct_file and in the
bootstrap branch of update_peer_blocks: compare block ids by their
numeric index suffix. -/
def idxLE (a b : BlockId) : Bool := a.2 ≤ b.2

/-- update_peer_blocks (lines 94-110).  their_blocks is the advertised
set, given in its iteration order.  When total_block_count is zero and
the advertisement is non-empty, bootstrap the count and the id list
(sorted by numeric index suffix).  Then drop the peer from every mapped
block it no longer advertises and add it to every advertised block. -/
def update_peer_blocks (bm : BlockManager) (peer_id : PeerId)
    (their_blocks : List BlockId) : BlockManager :=
  let boot := bm.total_block_count = 0 ∧ their_blocks ≠ []
  let tc := if boot then their_blocks.length else bm.total_block_count
  let all := if boot then their_blocks.mergeSort idxLE else bm.all_block_ids
  let pbm1 := bm.peer_block_map.map (fun e =>
    (e.1, if peer_id ∈ e.2 ∧ ¬ e.1 ∈ their_blocks then e.2.erase peer_id else e.2))
  let pbm2 := their_blocks.foldl (fun m b =>
    match alookup b m with
    | some s => dictInsert b (setAdd s peer_id) m
    | none => dictInsert b (setAdd [] peer_id) m) pbm1
  { bm with total_block_count := tc, all_block_ids := all, peer_block_map := pbm2 }

/-- remove_peer_blocks (lines 112-116): drop the peer from every holder
set of the peer block map. -/
def remove_peer_blocks (bm : BlockManager) (peer_id : PeerId) : BlockManager :=
  { bm with peer_block_map := bm.peer_block_map.map (fun e =>
      (e.1, if peer_id ∈ e.2 then e.2.erase peer_id else e.2)) }

/-- get_block_rarity (lines 118-120): dict from mapped block id to the
number of peers holding it. -/
def get_block_rarity (bm : BlockManager) : List (BlockId × Nat) :=
  bm.peer_block_map.map (fun e => (e.1, e.2.length))

/-- rarity.get block 0 as used in get_rarest_missing_blocks: the mapped
count, defaulting to zero for a block no peer is known to hold. -/
def rarityGet (bm : BlockManager) (b : BlockId) : Nat :=
  (alookup b bm.get_block_rarity).getD 0

/-- get_rarest_missing_blocks (lines 122-131): the missing blocks sorted
ascending by rarity (stable sort, so ties keep the iteration order of
the missing set, which we model by the all_block_ids order). -/
def get_rarest_missing_blocks (bm : BlockManager) : List BlockId :=
  let missing := bm.get_missing_blocks
  if missing = [] then []
  else missing.mergeSort (fun a b => bm.rarityGet a ≤ bm.rarityGet b)

/-- get_peer_blocks (lines 133-139): the set of blocks a given peer is
known to hold. -/
def get_peer_blocks (bm : BlockManager) (peer_id : PeerId) : List BlockId :=
  (bm.peer_block_map.filter (fun e => peer_id ∈ e.2)).map (fun e => e.1)

/-- Outcome of reconstruct_file (src/minibit/block_manager.py, lines
72-90).  The source signals the incomplete precondition by logging an
error and returning without touching the output file, and signals a
failing write by logging the IOError; both are modelled as explicit
outcome values, a successful reconstruction carries the bytes written. -/
inductive ReconResult where
  | incompleteFile : ReconResult
  | ioError : ReconResult
  | written : Data → ReconResult
deriving Repr, DecidableEq

/-- reconstruct_file (lines 72-90): refuse when is_complete is false;
otherwise sort the owned block ids by their numeric index suffix and
concatenate their data to the output file.  writeOk says whether the
file system write succeeds. -/
def reconstruct_file (bm : BlockManager) (writeOk : Bool) : ReconResult :=
  if bm.is_complete.1 = true then
    let sorted := bm.get_my_blocks.mergeSort idxLE
    let content := (sorted.map (fun id => (alookup id bm.my_blocks).getD [])).flatten
    if writeOk then ReconResult.written content else ReconResult.ioError
  else ReconResult.incompleteFile

/-- The set of peers known to hold a block: the mapped holder set of the
peer block map, empty for an unmapped block. -/
def holders (bm : BlockManager) (b : BlockId) : List PeerId :=
  (alookup b bm.peer_block_map).getD []

end BlockManager

/-- State of src/minibit/unchoke_manager.py class UnchokeManager: the set
of fixed unchoked peers and the optional optimistic slot. -/
structure UnchokeManager where
  my_peer_id : PeerId
  fixed_unchoked : List PeerId
  optimistic_unchoke : Option PeerId
deriving Repr, DecidableEq

namespace UnchokeManager

/-- MAX_FIXED_UNCHOKED of src/minibit/unchoke_manager.py (line 12). -/
def MAX_FIXED_UNCHOKED : Nat := 4

/-- unregister_peer (lines 21-26). -/
def unregister_peer (um : UnchokeManager) (peer_id : PeerId) : UnchokeManager :=
  { um with
    fixed_unchoked := if peer_id ∈ um.fixed_unchoked
      then um.fixed_unchoked.erase peer_id else um.fixed_unchoked
    optimistic_unchoke := if um.optimistic_unchoke = some peer_id
      then none else um.optimistic_unchoke }

/-- is_unchoked (lines 90-92). -/
def is_unchoked (um : UnchokeManager) (peer_id : PeerId) : Bool :=
  peer_id ∈ um.fixed_unchoked ∨ um.optimistic_unchoke = some peer_id

/-- The optional optimistic slot viewed as a zero- or one-element set. -/
def optList : Option PeerId → List PeerId
  | some p => [p]
  | none => []

/-- evaluate_peers (src/minibit/unchoke_manager.py, lines 28-88).
The call random.shuffle on the interested list is modelled by the
parameter shuffled (a permutation of interested_peers chosen by the
random generator); random.choice on the residual candidates is modelled
by the index choiceIdx (reduced modulo the candidate count).  The
block_rarity argument is received but, as in the source, never used:
the selection is uniform random.  With no interested peers the source
returns every currently unchoked peer as the choke list without
touching its own state.  Returns ((to_choke, to_unchoke), new state). -/
def evaluate_peers (um : UnchokeManager) (interested_peers : List PeerId)
    (_block_rarity : List (BlockId × Nat)) (shuffled : List PeerId)
    (choiceIdx : Nat) : (List PeerId × List PeerId) × UnchokeManager :=
  if interested_peers = [] then
    ((um.fixed_unchoked ++ optList um.optimistic_unchoke, []), um)
  else
    let new_fixed := shuffled.take MAX_FIXED_UNCHOKED
    let potential := shuffled.filter (fun p => ¬ p ∈ new_fixed)
    let new_opt := if potential = [] then none
      else some (potential.getD (choiceIdx % potential.length) "")
    let currently := um.fixed_unchoked ++ optList um.optimistic_unchoke
    let newly := new_fixed ++ optList new_opt
    let to_unchoke := newly.filter (fun p => ¬ p ∈ currently)
    let to_choke := currently.filter (fun p => ¬ p ∈ newly)
    ((to_choke, to_unchoke),
      { um with fixed_unchoked := new_fixed, optimistic_unchoke := new_opt })

end UnchokeManager

/-- An incoming peer-to-peer frame as the message loop sees it after JSON
decoding (src/minibit/peer.py, lines 176-226).  Fields mirror msg.get
and msg[...] accesses: a missing field is none.  The data field of a
block_data frame is a hex string in the source; we model it as none when
missing, some none when present but not valid hex (bytes.fromhex
raises), and some (some d) when it decodes to the bytes d. -/
structure PMsg where
  tyField : Option String
  blocks : Option (List BlockId)
  block_id : Option BlockId
  dataField : Option (Option Data)
deriving Repr, DecidableEq

/-- A message the loop emits while handling one frame. -/
inductive OutMsg where
  /-- A block_data reply on this connection. -/
  | blockData : BlockId → Data → OutMsg
  /-- The have broadcast sent to all connections (and, with it, the
  UPDATE_BLOCKS push to the tracker) after a block is accepted. -/
  | haveMsg : List BlockId → OutMsg
deriving Repr, DecidableEq

/-- The slice of Peer state (src/minibit/peer.py) the message loop and its
cleanup path read and write: the block manager, the unchoke manager, the
connected and known peer id sets, the leecher task flag, and the
choked_by_peer flag of the connection the loop serves. -/
structure NodeState where
  bm : BlockManager
  um : UnchokeManager
  connections : List PeerId
  known_peers : List PeerId
  download_task : Bool
  conn_choked_by_peer : Bool
deriving Repr, DecidableEq

/-- Result of handling one frame in the message loop: either the loop
continues with the new state, or it breaks (connection error or handler
exception) and the cleanup path runs next. -/
inductive StepResult where
  | continueLoop : NodeState → List OutMsg → StepResult
  | breakLoop : NodeState → List OutMsg → StepResult
deriving Repr, DecidableEq

namespace NodeState

/-- One iteration of Peer._message_loop (src/minibit/peer.py, lines
178-226) handling the frame msg on the connection to peer_id; msg is
none when read_message failed (EOF, reset, framing or JSON error), which
breaks the loop.  A missing required field raises KeyError, caught at
line 224, which also breaks the loop.  A frame whose type is none of
have / request_block / block_data / choke / unchoke matches no branch of
the elif chain: the loop silently continues.  A served block must be
truthy in Python, so an empty stored byte string is never sent.
writeOk feeds the file write in a completed reconstruction. -/
def message_loop_step (st : NodeState) (peer_id : PeerId) (msg : Option PMsg)
    (writeOk : Bool) : StepResult :=
  match msg with
  | none => StepResult.breakLoop st []
  | some m =>
    if m.tyField = some "have" then
      match m.blocks with
      | none => StepResult.breakLoop st []
      | some bs =>
        StepResult.continueLoop { st with bm := st.bm.update_peer_blocks peer_id bs } []
    else if m.tyField = some "request_block" then
      if st.um.is_unchoked peer_id then
        match m.block_id with
        | none => StepResult.breakLoop st []
        | some id =>
          match st.bm.get_block_data id with
          | some d =>
            if d.length ≠ 0 then StepResult.continueLoop st [OutMsg.blockData id d]
            else StepResult.continueLoop st []
          | none => StepResult.continueLoop st []
      else StepResult.continueLoop st []
    else if m.tyField = some "block_data" then
      match m.block_id, m.dataField with
      | some id, some (some d) =>
        let r := st.bm.add_block id d
        if r.1 then
          let outs := [OutMsg.haveMsg r.2.get_my_blocks]
          let c := r.2.is_complete
          if c.1 then
            -- reconstruct_file runs here; its internal is_complete call
            -- repairs total_block_count a second time, which is a no-op
            -- after the repair already applied in c.2
            let _ := c.2.reconstruct_file writeOk
            StepResult.continueLoop { st with bm := c.2, download_task := false } outs
          else StepResult.continueLoop { st with bm := c.2 } outs
        else StepResult.continueLoop { st with bm := r.2 } []
      | _, _ => StepResult.breakLoop st []
    else if m.tyField = some "choke" then
      StepResult.continueLoop { st with conn_choked_by_peer := true } []
    else if m.tyField = some "unchoke" then
      StepResult.continueLoop { st with conn_choked_by_peer := false } []
    else
      StepResult.continueLoop st []

/-- The cleanup path after the message loop exits (src/minibit/peer.py,
lines 228-238): close and drop the connection, forget the peer, purge it
from the peer block map and from the unchoke manager. -/
def connection_cleanup (st : NodeState) (peer_id : PeerId) : NodeState :=
  { st with
    connections := st.connections.erase peer_id
    known_peers := st.known_peers.erase peer_id
    bm := st.bm.remove_peer_blocks peer_id
    um := st.um.unregister_peer peer_id }

end NodeState

/-- The block chosen by Peer._request_blocks (src/minibit/peer.py, lines
272-298): walk the rarest-first list and request the first block some
available peer holds (available means connected and not choking us,
modelled by the predicate).  Returns none when no block can be
requested this tick. -/
def request_block_target (bm : BlockManager) (available : PeerId → Bool) :
    Option BlockId :=
  bm.get_rarest_missing_blocks.find?
    (fun b => ((alookup b bm.peer_block_map).getD []).any available)

/-- The states of the minibit BlockManager reachable from a fresh
instance by the public mutating calls (successful load_from_file,
add_block, update_peer_blocks with an advertised set, remove_peer_blocks)
together with the state repair is_complete performs.  Advertised sets
are duplicate-free since Python hands them over as sets. -/
inductive Reachable : BlockManager → Prop where
  | init (file_name : String) (block_size : Nat) :
      Reachable (BlockManager.init file_name block_size)
  | load {bm : BlockManager} (base : String) (F : Data) :
      Reachable bm → Reachable (bm.load_from_file base F)
  | add {bm : BlockManager} (id : BlockId) (d : Data) :
      Reachable bm → Reachable (bm.add_block id d).2
  | update {bm : BlockManager} (p : PeerId) (S : List BlockId) :
      S.Nodup → Reachable bm → Reachable (bm.update_peer_blocks p S)
  | remove {bm : BlockManager} (p : PeerId) :
      Reachable bm → Reachable (bm.remove_peer_blocks p)
  | complete {bm : BlockManager} :
      Reachable bm → Reachable bm.is_complete.2

/-- A registered peer entry of the tracker registry: ip, port and the
advertised block set (tracker-side block ids are the raw strings of the
wire). -/
structure TrackerEntry where
  ip : String
  port : Nat
  blocks : List String
deriving Repr, DecidableEq

/-- State of src/minibit/tracker.py class Tracker: the registry mapping
file name to the registered peers with address and advertised block set.
The peer_id key comes from message.get and can be absent (None), hence
the Option key. -/
structure Tracker where
  files : List (String × List (Option String × TrackerEntry))
deriving Repr, DecidableEq

/-- A decoded tracker request (src/minibit/tracker.py): the fields
_process_command reads, none when absent from the JSON object. -/
structure TrackerMsg where
  command : Option String
  peer_id : Option String
  file_name : Option String
  address : Option (String × Nat)
  blocks : Option (List String)
deriving Repr, DecidableEq

/-- One element of the peers list of a GET_PEERS response. -/
structure TrackerPeerInfo where
  peer_id : Option String
  address : String × Nat
  blocks : List String
deriving Repr, DecidableEq

/-- A tracker response object: the status string plus the optional
message and peers fields. -/
structure TrackerResponse where
  status : String
  message : Option String
  peers : Option (List TrackerPeerInfo)
deriving Repr, DecidableEq

namespace Tracker

/-- Tracker._process_command (src/minibit/tracker.py, lines 100-148).
Handles REGISTER, GET_PEERS and UPDATE_BLOCKS; every other command
(REMOVE included — the source has no branch for it) falls through to the
unknown-command error response.  A KeyError on a missing required field
propagates to the caller, modelled as Except.error.  The uniform random
5-sample of GET_PEERS is modelled by the sample parameter. -/
def process_command (tr : Tracker) (msg : TrackerMsg)
    (sample : List (Option String × TrackerEntry) → List (Option String × TrackerEntry)) :
    Except Unit (TrackerResponse × Tracker) :=
  let peer_id := msg.peer_id
  let okResp : TrackerResponse := { status := "ok", message := none, peers := none }
  let notFound : TrackerResponse := { status := "error", message := some "Peer or file not found", peers := none }
  if msg.command = some "REGISTER" then
    match msg.file_name, msg.address, msg.blocks with
    | some fn, some addr, some bs =>
      let files1 := if (alookup fn tr.files).isSome then tr.files
        else dictInsert fn [] tr.files
      let m := (alookup fn files1).getD []
      let entry : TrackerEntry := { ip := addr.1, port := addr.2, blocks := bs }
      Except.ok (okResp, { files := dictInsert fn (dictInsert peer_id entry m) files1 })
    | _, _, _ => Except.error ()
  else if msg.command = some "GET_PEERS" then
    match msg.file_name with
    | some fn =>
      let peers_list :=
        match alookup fn tr.files with
        | some all_peers =>
          let other := all_peers.filter (fun e => e.1 ≠ peer_id)
          let selected := if other.length < 5 then other else sample other
          selected.map (fun e =>
            { peer_id := e.1, address := (e.2.ip, e.2.port), blocks := e.2.blocks : TrackerPeerInfo })
        | none => []
      Except.ok ({ status := "ok", message := none, peers := some peers_list }, tr)
    | none => Except.error ()
  else if msg.command = some "UPDATE_BLOCKS" then
    match msg.file_name, msg.blocks with
    | some fn, some bs =>
      (match alookup fn tr.files with
      | some m =>
        match alookup peer_id m with
        | some info =>
          let entry : TrackerEntry := { info with blocks := bs }
          Except.ok (okResp, { files := dictInsert fn (dictInsert peer_id entry m) tr.files })
        | none => Except.ok (notFound, tr)
      | none => Except.ok (notFound, tr))
    | _, _ => Except.error ()
  else
    Except.ok ({ status := "error", message := some "Comando desconhecido", peers := none }, tr)

end Tracker

end MiniBit

namespace PeerVariant

open MiniBit (BlockId Data PeerId alookup dictInsert)

/-- State of src/peer/block_manager.py class BlockManager: the second,
divergent block manager of the repository.  blocks maps owned block ids
to data, total_blocks is the set of all block ids in the system,
rarity_info the per-block holder count. -/
structure BlockManager where
  blocks : List (BlockId × Data)
  total_blocks : List BlockId
  rarity_info : List (BlockId × Nat)
deriving Repr, DecidableEq

namespace BlockManager

/-- get_blocks (src/peer/block_manager.py, lines 49-56). -/
def get_blocks (bm : BlockManager) : List BlockId :=
  bm.blocks.map (fun e => e.1)

/-- add_block (src/peer/block_manager.py, lines 67-85): reject a block
that is already present, and also any block id outside total_blocks
(hence everything while total_blocks is still empty); otherwise store
the data and report success. -/
def add_block (bm : BlockManager) (block_id : BlockId) (data : Data) :
    Bool × BlockManager :=
  if (alookup block_id bm.blocks).isSome then (false, bm)
  else if ¬ block_id ∈ bm.total_blocks then (false, bm)
  else (true, { bm with blocks := dictInsert block_id data bm.blocks })

end BlockManager

/-- The slice of a PeerStatistics record (src/peer/unchoke_manager.py,
lines 8-18) that _update_optimistic_peer reads or writes: the interested
flag and the upload permission.  The download statistics and timestamps
of the record are never touched by that operation and are omitted. -/
structure PeerStatistics where
  is_interested : Bool
  upload_allowed : Bool
deriving Repr, DecidableEq

/-- State of src/peer/unchoke_manager.py class UnchokeManager as far as
the optimistic-slot logic is concerned: the fixed unchoked set, the
optimistic slot, the statistics table and the time of the last
optimistic change.  Wall-clock times are modelled as integers. -/
structure UnchokeManager where
  fixed_peers : List PeerId
  optimistic_peer : Option PeerId
  peer_stats : List (PeerId × PeerStatistics)
  last_optimistic_change : Int
deriving Repr, DecidableEq

namespace UnchokeManager

/-- OPTIMISTIC_INTERVAL of src/peer/unchoke_manager.py (line 28). -/
def OPTIMISTIC_INTERVAL : Int := 30

/-- _update_optimistic_peer (src/peer/unchoke_manager.py, lines 232-263):
when OPTIMISTIC_INTERVAL has elapsed since the last change, pick a new
optimistic peer uniformly at random (modelled by choiceIdx) among the
interested peers outside the fixed set, moving the upload permission
from the old optimistic peer to the new one, and stamp the change time;
when the interval has not elapsed, do nothing at all. -/
def update_optimistic_peer (um : UnchokeManager) (current_time : Int)
    (choiceIdx : Nat) : UnchokeManager :=
  if OPTIMISTIC_INTERVAL ≤ current_time - um.last_optimistic_change then
    let potential := (um.peer_stats.filter
      (fun e => e.2.is_interested ∧ ¬ e.1 ∈ um.fixed_peers)).map (fun e => e.1)
    if potential = [] then
      { um with optimistic_peer := none, last_optimistic_change := current_time }
    else
      let newOpt := potential.getD (choiceIdx % potential.length) ""
      let stats1 :=
        match um.optimistic_peer with
        | some old =>
          if ¬ old ∈ um.fixed_peers ∧ (alookup old um.peer_stats).isSome then
            um.peer_stats.map (fun e =>
              if e.1 = old then (e.1, { e.2 with upload_allowed := false }) else e)
          else um.peer_stats
        | none => um.peer_stats
      let stats2 :=
        if (alookup newOpt stats1).isSome then
          stats1.map (fun e =>
            if e.1 = newOpt then (e.1, { e.2 with upload_allowed := true }) else e)
        else stats1
      { um with optimistic_peer := some newOpt, peer_stats := stats2, last_optimistic_change := current_time }
  else um

end UnchokeManager

end PeerVariant

namespace ScriptTracker

open MiniBit (alookup)

/-- Python dict deletion del m k: drop the entry of the key. -/
def dictErase {α β : Type} [DecidableEq α] (k : α) : List (α × β) → List (α × β)
  | [] => []
  | (k0, v) :: t => if k0 = k then t else (k0, v) :: dictErase k t

/-- State of src/tracker/tracker.py class Tracker: peer id to
(ip, port, block set); this variant keys block ids as integers. -/
structure Tracker where
  peers : List (String × (String × Nat × List Nat))
deriving Repr, DecidableEq

namespace Tracker

/-- remove_peer (src/tracker/tracker.py, lines 84-97): delete the entry
and return True when the peer is registered, otherwise None. -/
def remove_peer (tr : Tracker) (peer_id : String) : Option Bool × Tracker :=
  if (alookup peer_id tr.peers).isSome then
    (some true, { peers := dictErase peer_id tr.peers })
  else (none, tr)

/-- The REMOVE branch of the request handler of scripts/start_tracker.py
(lines 39-42): call remove_peer and answer with status ok when it
returned a truthy value, fail otherwise. -/
def handle_remove (tr : Tracker) (peer_id : String) : String × Tracker :=
  let r := tr.remove_peer peer_id
  (if r.1 = some true then "ok" else "fail", r.2)

end Tracker

end ScriptTracker

namespace MiniBit

/-- A concrete loaded seeder state: the three-byte file [9, 9, 9] with
block size 2, split into the blocks f_0 = [9, 9] and f_1 = [9]. -/
def bmLoaded : BlockManager :=
  (BlockManager.init "f" 2).load_from_file "f" [9, 9, 9]

/-- Swarm state of scenario S3 of the specification: blocks f_0 .. f_3,
no owned blocks, holder counts 3, 1, 2, 3.  Built by advertised HAVE
updates: p1 first advertises all four blocks (bootstrapping the id
list), then corrects to owning 0, 2, 3; p2 owns 0, 2, 3; p3 owns
0, 1, 3. -/
def s3 : BlockManager :=
  ((((BlockManager.init "f" 16384).update_peer_blocks "p1"
      [("f", 0), ("f", 1), ("f", 2), ("f", 3)]).update_peer_blocks "p1"
      [("f", 0), ("f", 2), ("f", 3)]).update_peer_blocks "p2"
      [("f", 0), ("f", 2), ("f", 3)]).update_peer_blocks "p3"
      [("f", 0), ("f", 1), ("f", 3)]

/-- A reachable state holding a foreign block: the id list f_0, f_1 is
bootstrapped from an advertised set, then the foreign block g_5 and the
real block f_0 are added.  Two blocks are owned, so the completion count
matches, yet f_1 is missing. -/
def bmForeign : BlockManager :=
  ((((BlockManager.init "f" 16384).update_peer_blocks "p"
      [("f", 0), ("f", 1)]).add_block ("g", 5) [1]).2.add_block ("f", 0) [2]).2

/-- Unchoke manager state with an optimistic peer u and no fixed peers. -/
def um6 : UnchokeManager :=
  { my_peer_id := "me", fixed_unchoked := [], optimistic_unchoke := some "u" }

/-- Six interested peers, the current optimistic peer u among them. -/
def interested6 : List PeerId := ["a", "b", "c", "d", "e", "u"]

/-- A node state whose peer q appears in the peer block map and in the
connection list: probe state for the message loop. -/
def node7 : NodeState :=
  { bm := bmLoaded.update_peer_blocks "q" [("f", 0)]
    um := { my_peer_id := "me", fixed_unchoked := ["q"], optimistic_unchoke := none }
    connections := ["q"]
    known_peers := ["q"]
    download_task := true
    conn_choked_by_peer := true }

/-- A frame with the unknown type ping. -/
def pmsgUnknown : PMsg :=
  { tyField := some "ping", blocks := none, block_id := none, dataField := none }

/-- A tracker with one registered peer. -/
def tr8 : Tracker :=
  { files := [("file.txt",
      [(some "p", { ip := "127.0.0.1", port := 5001, blocks := ["file.txt_0"] })])] }

/-- A well-formed REMOVE request as src/scripts/start_peer.py sends it:
just the command and the peer id. -/
def msgRemove : TrackerMsg :=
  { command := some "REMOVE", peer_id := some "p", file_name := none,
    address := none, blocks := none }

end MiniBit

/-! ## Helper lemmas about the dict and set models -/

namespace MiniBit

theorem alookup_dictInsert_self {α β : Type} [DecidableEq α] (k : α) (v : β)
    (m : List (α × β)) : alookup k (dictInsert k v m) = some v := by
  induction m with
  | nil => simp [dictInsert, alookup]
  | cons e t ih =>
    obtain ⟨k0, v0⟩ := e
    by_cases h : k0 = k
    · simp [dictInsert, alookup, h]
    · simp [dictInsert, alookup, h, ih]

theorem alookup_dictInsert_ne {α β : Type} [DecidableEq α] {j k : α} (v : β)
    (m : List (α × β)) (h : j ≠ k) :
    alookup j (dictInsert k v m) = alookup j m := by
  have hk : ¬ k = j := fun hh => h hh.symm
  induction m with
  | nil => simp [dictInsert, alookup, hk]
  | cons e t ih =>
    obtain ⟨k0, v0⟩ := e
    by_cases hke : k0 = k
    · subst hke
      simp [dictInsert, alookup, hk]
    · simp only [dictInsert, if_neg hke, alookup]
      by_cases hj : k0 = j
      · simp [hj]
      · simp [hj, ih]

theorem alookup_isSome_iff {α β : Type} [DecidableEq α] (k : α)
    (m : List (α × β)) : (alookup k m).isSome = true ↔ k ∈ m.map (fun e => e.1) := by
  induction m with
  | nil => simp [alookup]
  | cons e t ih =>
    obtain ⟨k0, v0⟩ := e
    by_cases h : k0 = k
    · simp [alookup, h]
    · have hk : ¬ k = k0 := fun hh => h hh.symm
      simp [alookup, h, hk, ih]

theorem dictInsert_of_alookup_none {α β : Type} [DecidableEq α] {k : α} (v : β)
    {m : List (α × β)} (h : alookup k m = none) :
    dictInsert k v m = m ++ [(k, v)] := by
  induction m with
  | nil => simp [dictInsert]
  | cons e t ih =>
    obtain ⟨k0, v0⟩ := e
    by_cases hk : k0 = k
    · simp [alookup, hk] at h
    · simp only [alookup, if_neg hk] at h
      simp [dictInsert, hk, ih h]

theorem keys_dictInsert {α β : Type} [DecidableEq α] (k : α) (v : β)
    (m : List (α × β)) :
    (dictInsert k v m).map (fun e => e.1) =
      if (alookup k m).isSome then m.map (fun e => e.1)
      else m.map (fun e => e.1) ++ [k] := by
  induction m with
  | nil => simp [dictInsert, alookup]
  | cons e t ih =>
    obtain ⟨k0, v0⟩ := e
    by_cases h : k0 = k
    · simp [dictInsert, alookup, h]
    · simp only [dictInsert, if_neg h, alookup, List.map_cons, ih]
      by_cases hs : (alookup k t).isSome
      · simp [hs]
      · simp [hs]

theorem keys_nodup_dictInsert {α β : Type} [DecidableEq α] (k : α) (v : β)
    {m : List (α × β)} (h : (m.map (fun e => e.1)).Nodup) :
    ((dictInsert k v m).map (fun e => e.1)).Nodup := by
  rw [keys_dictInsert]
  by_cases hs : (alookup k m).isSome
  · simpa [hs] using h
  · have hk : ¬ k ∈ m.map (fun e => e.1) := by
      rw [← alookup_isSome_iff k m]
      simpa using hs
    have hf : (alookup k m).isSome = false := by simpa using hs
    rw [hf, if_neg (by simp), List.nodup_append]
    exact ⟨h, List.nodup_singleton k,
      fun a ha hb => hk ((List.mem_singleton.mp hb) ▸ ha)⟩

theorem mem_setAdd_of_ne {α : Type} [DecidableEq α] {q p : α} (s : List α)
    (h : q ≠ p) : q ∈ setAdd s p ↔ q ∈ s := by
  unfold setAdd
  by_cases hp : p ∈ s
  · simp [hp]
  · simp [hp, h]

theorem alookup_map_value {α β : Type} [DecidableEq α] (b : α)
    (f : α → β → β) (m : List (α × β)) :
    alookup b (m.map (fun e => (e.1, f e.1 e.2))) =
      (alookup b m).map (fun v => f b v) := by
  induction m with
  | nil => simp [alookup]
  | cons e t ih =>
    obtain ⟨k0, v0⟩ := e
    by_cases h : k0 = b
    · subst h; simp [alookup]
    · simp [alookup, h, ih]

/-! ## C1 — add_block acceptance condition -/

/-- C1: the claim states that add_block rejects a block id that is
absent from a known, non-empty all_block_ids.  In the reconciled
BlockManager of src/minibit/block_manager.py there is no such check:
on the loaded state (ids f_0, f_1 known) the foreign id g_5 is accepted,
stored and acknowledged with true. -/
theorem c1_counterexample :
    bmLoaded.all_block_ids ≠ [] ∧ ¬ ("g", 5) ∈ bmLoaded.all_block_ids ∧
    (bmLoaded.add_block ("g", 5) [1]).1 = true ∧
    (bmLoaded.add_block ("g", 5) [1]).2.get_block_data ("g", 5) = some [1] := by
  refine ⟨by decide, by decide, by decide, by decide⟩

/-- C1 (amended): add_block of the reconciled BlockManager returns false
and stores nothing exactly when the id is already present; in every
other case — whether or not the id belongs to all_block_ids — it stores
the data under the id, returns true, and leaves every other block
unchanged.  The divergent BlockManager of src/peer/block_manager.py
instead accepts exactly the ids that are absent locally and present in
total_blocks, and stores nothing whenever it returns false. -/
theorem c1_add_block (id : BlockId) (d : Data) :
    ∀ (bm : BlockManager),
    (id ∈ bm.get_my_blocks → bm.add_block id d = (false, bm)) ∧
    (¬ id ∈ bm.get_my_blocks →
      (bm.add_block id d).1 = true ∧
      (bm.add_block id d).2.get_block_data id = some d ∧
      ∀ j : BlockId, j ≠ id →
        (bm.add_block id d).2.get_block_data j = bm.get_block_data j) ∧
    ∀ (bp : PeerVariant.BlockManager),
      ((bp.add_block id d).1 = true ↔
        ¬ id ∈ bp.get_blocks ∧ id ∈ bp.total_blocks) ∧
      ((bp.add_block id d).1 = false → (bp.add_block id d).2 = bp) := by
  intro bm
  have hmem := alookup_isSome_iff id bm.my_blocks
  refine ⟨?_, ?_, ?_⟩
  · intro h
    have : (alookup id bm.my_blocks).isSome := hmem.mpr h
    simp [BlockManager.add_block, this]
  · intro h
    have hnone : alookup id bm.my_blocks = none := by
      rcases ho : alookup id bm.my_blocks with _ | v
      · rfl
      · exact absurd (hmem.mp (by simp [ho])) h
    refine ⟨by simp [BlockManager.add_block, hnone], ?_, ?_⟩
    · simp [BlockManager.add_block, hnone, BlockManager.get_block_data,
        alookup_dictInsert_self]
    · intro j hj
      simp [BlockManager.add_block, hnone, BlockManager.get_block_data,
        alookup_dictInsert_ne d bm.my_blocks hj]
  · intro bp
    have hg : (id ∈ bp.get_blocks) ↔ (alookup id bp.blocks).isSome = true := by
      simp only [PeerVariant.BlockManager.get_blocks]
      exact (alookup_isSome_iff id bp.blocks).symm
    constructor
    · by_cases h1 : (alookup id bp.blocks).isSome = true
      · simp [PeerVariant.BlockManager.add_block, h1, hg]
      · by_cases h2 : id ∈ bp.total_blocks
        · simp [PeerVariant.BlockManager.add_block, h1, h2, hg]
        · simp [PeerVariant.BlockManager.add_block, h1, h2, hg]
    · by_cases h1 : (alookup id bp.blocks).isSome = true
      · simp [PeerVariant.BlockManager.add_block, h1]
      · by_cases h2 : id ∈ bp.total_blocks
        · simp [PeerVariant.BlockManager.add_block, h1, h2]
        · simp [PeerVariant.BlockManager.add_block, h1, h2]

/-- C1 witness: on the loaded state the absent foreign id g_5 is
accepted and leaves the loaded block f_0 untouched. -/
theorem c1_add_block_witness :
    ¬ ("g", 5) ∈ bmLoaded.get_my_blocks ∧
    (bmLoaded.add_block ("g", 5) [1]).2.get_block_data ("f", 0) =
      bmLoaded.get_block_data ("f", 0) :=
  ⟨by decide,
    ((c1_add_block ("g", 5) [1] bmLoaded).2.1 (by decide)).2.2 ("f", 0) (by decide)⟩

end MiniBit

/-! ## C2 — file round trip -/

namespace MiniBit

theorem alookup_append_of_none {α β : Type} [DecidableEq α] {k : α}
    {m : List (α × β)} (n : List (α × β)) (h : alookup k m = none) :
    alookup k (m ++ n) = alookup k n := by
  induction m with
  | nil => simp
  | cons e t ih =>
    obtain ⟨k0, v0⟩ := e
    by_cases hk : k0 = k
    · simp [alookup, hk] at h
    · simp only [alookup, if_neg hk] at h
      simpa [alookup, hk] using ih h

theorem foldl_dictInsert_fresh {α β : Type} [DecidableEq α] (f : α → β) :
    ∀ (ids : List α) (m : List (α × β)),
      (∀ id ∈ ids, alookup id m = none) → ids.Nodup →
      ids.foldl (fun acc id => dictInsert id (f id) acc) m =
        m ++ ids.map (fun id => (id, f id))
  | [], m, _, _ => by simp
  | id0 :: t, m, hfresh, hnd => by
    have h0 : alookup id0 m = none := hfresh id0 (by simp)
    have hstep : dictInsert id0 (f id0) m = m ++ [(id0, f id0)] :=
      dictInsert_of_alookup_none (f id0) h0
    have hfresh1 : ∀ id ∈ t, alookup id (m ++ [(id0, f id0)]) = none := by
      intro id hid
      have hne : ¬ id0 = id := by
        intro hh
        exact (List.nodup_cons.mp hnd).1 (hh ▸ hid)
      rw [alookup_append_of_none _ (hfresh id (by simp [hid]))]
      simp [alookup, hne]
    have ih := foldl_dictInsert_fresh f t (m ++ [(id0, f id0)]) hfresh1
      (List.nodup_cons.mp hnd).2
    simp only [List.foldl_cons, hstep, ih, List.map_cons, List.append_assoc,
      List.singleton_append]

theorem alookup_map_pairs {α β : Type} [DecidableEq α] (f : α → β) (k : α) :
    ∀ (ids : List α),
      alookup k (ids.map (fun id => (id, f id))) =
        if k ∈ ids then some (f k) else none
  | [] => by simp [alookup]
  | j :: t => by
    by_cases h : j = k
    · subst h
      simp [alookup, alookup_map_pairs f j t]
    · have hk : ¬ k = j := fun hh => h hh.symm
      simp [alookup, h, hk, alookup_map_pairs f k t]

theorem flatten_chunks (bs : Nat) (hbs : 0 < bs) :
    ∀ (F : Data),
      ((List.range ((F.length + bs - 1) / bs)).map
        (fun i => BlockManager.fileChunk F bs i)).flatten = F
  | [] => by
    rw [show (List.length ([] : Data) + bs - 1) / bs = 0 from
      Nat.div_eq_of_lt (by simp; omega)]
    rfl
  | a :: t => by
    have hk : ((a :: t).length + bs - 1) / bs
        = (((a :: t).drop bs).length + bs - 1) / bs + 1 := by
      have hdl : ((a :: t).drop bs).length = t.length + 1 - bs := by
        simp [List.length_drop]
      have hL : (a :: t).length + bs - 1 = t.length + bs := by
        simp only [List.length_cons]; omega
      rw [hL, Nat.add_div_right _ hbs, hdl]
      rcases le_or_lt bs (t.length + 1) with hle | hlt
      · have h1 : t.length + 1 - bs + bs - 1 = t.length := by omega
        rw [h1]
      · have h1 : t.length + 1 - bs = 0 := by omega
        rw [h1, Nat.div_eq_of_lt (by omega), Nat.div_eq_of_lt (by omega)]
    have hch : ∀ i, BlockManager.fileChunk (a :: t) bs (i + 1)
        = BlockManager.fileChunk ((a :: t).drop bs) bs i := by
      intro i
      unfold BlockManager.fileChunk
      rw [List.drop_drop]
      have : bs + i * bs = (i + 1) * bs := by ring
      rw [this]
    have hrec := flatten_chunks bs hbs ((a :: t).drop bs)
    rw [hk, List.range_succ_eq_map, List.map_cons, List.flatten_cons,
      List.map_map]
    rw [List.map_congr_left (fun i _ => by
      show BlockManager.fileChunk (a :: t) bs (Nat.succ i)
        = BlockManager.fileChunk ((a :: t).drop bs) bs i
      exact hch i)]
    rw [hrec]
    show BlockManager.fileChunk (a :: t) bs 0 ++ (a :: t).drop bs = a :: t
    unfold BlockManager.fileChunk
    simp
termination_by F => F.length
decreasing_by
  simp only [List.length_drop, List.length_cons]
  omega

end MiniBit

namespace MiniBit

theorem load_from_file_my_blocks (bm : BlockManager) (base : String) (F : Data)
    (h : bm.my_blocks = []) :
    (bm.load_from_file base F).my_blocks =
      ((List.range ((F.length + bm.block_size - 1) / bm.block_size)).map
        (fun i => ((base, i) : BlockId))).map
        (fun id => (id, BlockManager.fileChunk F bm.block_size id.2)) := by
  have hnd : (((List.range ((F.length + bm.block_size - 1) / bm.block_size)).map
      (fun i => ((base, i) : BlockId)))).Nodup := by
    refine (List.nodup_range _).map ?_
    intro a b hab
    simpa using hab
  simp only [BlockManager.load_from_file, h]
  rw [foldl_dictInsert_fresh (fun id => BlockManager.fileChunk F bm.block_size id.2)
    _ [] (fun id _ => rfl) hnd]
  simp

/-- C2: loading any non-empty file F with positive block size and
reconstructing from the resulting complete store writes exactly F. -/
theorem c2_file_round_trip (base : String) (bs : Nat) (F : Data)
    (hbs : 0 < bs) (hF : F ≠ []) :
    ((BlockManager.init base bs).load_from_file base F).reconstruct_file true
      = BlockManager.ReconResult.written F := by
  have hlen : 0 < F.length := List.length_pos.mpr hF
  have hbsz : (BlockManager.init base bs).block_size = bs := rfl
  have htot : 0 < (F.length + bs - 1) / bs := Nat.div_pos (by omega) hbs
  have hmy : ((BlockManager.init base bs).load_from_file base F).my_blocks =
      ((List.range ((F.length + bs - 1) / bs)).map (fun i => ((base, i) : BlockId))).map
        (fun id => (id, BlockManager.fileChunk F bs id.2)) := by
    have := load_from_file_my_blocks (BlockManager.init base bs) base F rfl
    rwa [hbsz] at this
  have htc : ((BlockManager.init base bs).load_from_file base F).total_block_count
      = (F.length + bs - 1) / bs := rfl
  have hall : ((BlockManager.init base bs).load_from_file base F).all_block_ids
      = (List.range ((F.length + bs - 1) / bs)).map (fun i => ((base, i) : BlockId)) := rfl
  have hmylen : ((BlockManager.init base bs).load_from_file base F).my_blocks.length
      = (F.length + bs - 1) / bs := by
    rw [hmy]; simp
  have hcomplete : ((BlockManager.init base bs).load_from_file base F).is_complete.1 = true := by
    simp only [BlockManager.is_complete, htc, hmylen]
    have : ¬ ((F.length + bs - 1) / bs = 0 ∧
        0 < (((BlockManager.init base bs).load_from_file base F).all_block_ids).length) := by
      intro hcontra
      omega
    rw [if_neg this]
    simp [htot]
  have hkeys : ((BlockManager.init base bs).load_from_file base F).get_my_blocks =
      (List.range ((F.length + bs - 1) / bs)).map (fun i => ((base, i) : BlockId)) := by
    simp only [BlockManager.get_my_blocks, hmy, List.map_map]
    exact List.map_congr_left (fun i _ => rfl)
  have hsorted : ((List.range ((F.length + bs - 1) / bs)).map
      (fun i => ((base, i) : BlockId))).Pairwise
      (fun a b => BlockManager.idxLE a b) := by
    refine (List.pairwise_le_range _).map _ ?_
    intro a b hab
    simpa [BlockManager.idxLE] using hab
  have hms : ((List.range ((F.length + bs - 1) / bs)).map
      (fun i => ((base, i) : BlockId))).mergeSort BlockManager.idxLE =
      (List.range ((F.length + bs - 1) / bs)).map (fun i => ((base, i) : BlockId)) :=
    List.mergeSort_of_sorted hsorted
  have hlookup : ∀ id ∈ (List.range ((F.length + bs - 1) / bs)).map
      (fun i => ((base, i) : BlockId)),
      alookup id ((BlockManager.init base bs).load_from_file base F).my_blocks
        = some (BlockManager.fileChunk F bs id.2) := by
    intro id hid
    rw [hmy, alookup_map_pairs, if_pos hid]
  simp only [BlockManager.reconstruct_file, hcomplete, if_true, hkeys, hms]
  have hcontent : (((List.range ((F.length + bs - 1) / bs)).map
      (fun i => ((base, i) : BlockId))).map
      (fun id => (alookup id ((BlockManager.init base bs).load_from_file base F).my_blocks).getD [])) =
      (List.range ((F.length + bs - 1) / bs)).map (fun i => BlockManager.fileChunk F bs i) := by
    rw [List.map_congr_left (fun id hid => by rw [hlookup id hid])]
    rw [List.map_map]
    exact List.map_congr_left (fun i _ => rfl)
  rw [hcontent, flatten_chunks bs hbs F]

/-- C2 witness: the three-byte file loaded with block size two
reconstructs to itself. -/
theorem c2_file_round_trip_witness :
    0 < 2 ∧ ([9, 9, 9] : Data) ≠ [] ∧
    bmLoaded.reconstruct_file true = BlockManager.ReconResult.written [9, 9, 9] :=
  ⟨by decide, by decide, c2_file_round_trip "f" 2 [9, 9, 9] (by decide) (by decide)⟩

end MiniBit

/-! ## C3 — rarest-first ordering -/

namespace MiniBit

unseal List.merge List.mergeSort in
/-- C3: get_rarest_missing_blocks returns exactly the missing blocks (a
permutation of the missing set), ordered ascending by the holder count
with absent map entries counting as rarity zero, and on the S3 swarm
state (rarities 3, 1, 2, 3, nothing owned) the first block requested by
_request_blocks is block 1.  Tie-breaking is a pure function of the
modelled state (the stable sort keeps the missing-set iteration order). -/
theorem c3_rarest_missing :
    (∀ bm : BlockManager,
      bm.get_rarest_missing_blocks.Perm bm.get_missing_blocks ∧
      bm.get_rarest_missing_blocks.Pairwise
        (fun a b => bm.rarityGet a ≤ bm.rarityGet b)) ∧
    request_block_target s3 (fun _ => true) = some ("f", 1) := by
  constructor
  · intro bm
    unfold BlockManager.get_rarest_missing_blocks
    by_cases h : bm.get_missing_blocks = []
    · simp [h]
    · rw [if_neg h]
      refine ⟨List.mergeSort_perm _ _, ?_⟩
      have hs : (bm.get_missing_blocks.mergeSort
          (fun a b => decide (bm.rarityGet a ≤ bm.rarityGet b))).Pairwise
          (fun a b => decide (bm.rarityGet a ≤ bm.rarityGet b) = true) :=
        List.sorted_mergeSort
          (fun a b c hab hbc => by
            simp only [decide_eq_true_eq] at hab hbc ⊢
            omega)
          (fun a b => by
            simp only [Bool.or_eq_true, decide_eq_true_eq]
            omega)
          bm.get_missing_blocks
      exact hs.imp (fun hab => by simpa using hab)
  · decide

end MiniBit

/-! ## C4 — completion implies empty rarest-missing list -/

namespace MiniBit

theorem keys_nodup_foldl_dictInsert {α β : Type} [DecidableEq α] (f : α → β) :
    ∀ (ids : List α) (m : List (α × β)),
      (m.map (fun e => e.1)).Nodup →
      (((ids.foldl (fun acc id => dictInsert id (f id) acc) m)).map
        (fun e => e.1)).Nodup
  | [], m, h => h
  | id0 :: t, m, h => by
    simp only [List.foldl_cons]
    exact keys_nodup_foldl_dictInsert f t (dictInsert id0 (f id0) m)
      (keys_nodup_dictInsert id0 (f id0) h)

theorem reachable_invariants {bm : BlockManager} (h : Reachable bm) :
    bm.total_block_count = bm.all_block_ids.length ∧
    bm.all_block_ids.Nodup ∧ bm.get_my_blocks.Nodup := by
  induction h with
  | init fn bs =>
    simp [BlockManager.init, BlockManager.get_my_blocks]
  | load base F hr ih =>
    rename_i bm0
    refine ⟨by simp [BlockManager.load_from_file], ?_, ?_⟩
    · simp only [BlockManager.load_from_file]
      refine (List.nodup_range _).map ?_
      intro a b hab
      simpa using hab
    · simp only [BlockManager.get_my_blocks, BlockManager.load_from_file]
      exact keys_nodup_foldl_dictInsert _ _ _ ih.2.2
  | add id d hr ih =>
    rename_i bm0
    unfold BlockManager.add_block
    by_cases hp : (alookup id bm0.my_blocks).isSome
    · simpa [hp] using ih
    · refine ⟨by simpa [hp] using ih.1, by simpa [hp] using ih.2.1, ?_⟩
      simp only [hp, Bool.false_eq_true, if_false, BlockManager.get_my_blocks]
      exact keys_nodup_dictInsert id d ih.2.2
  | update p S hS hr ih =>
    rename_i bm0
    by_cases hb : bm0.total_block_count = 0 ∧ S ≠ []
    · refine ⟨?_, ?_, ?_⟩
      · simp only [BlockManager.update_peer_blocks]
        rw [if_pos hb, if_pos hb, List.length_mergeSort]
      · simp only [BlockManager.update_peer_blocks]
        rw [if_pos hb]
        exact (List.mergeSort_perm S BlockManager.idxLE).nodup_iff.mpr hS
      · simpa [BlockManager.update_peer_blocks, BlockManager.get_my_blocks]
          using ih.2.2
    · refine ⟨?_, ?_, ?_⟩
      · simp only [BlockManager.update_peer_blocks]
        rw [if_neg hb, if_neg hb]
        exact ih.1
      · simp only [BlockManager.update_peer_blocks]
        rw [if_neg hb]
        exact ih.2.1
      · simpa [BlockManager.update_peer_blocks, BlockManager.get_my_blocks]
          using ih.2.2
  | remove p hr ih =>
    exact ⟨ih.1, ih.2.1, by simpa [BlockManager.get_my_blocks,
      BlockManager.remove_peer_blocks] using ih.2.2⟩
  | complete hr ih =>
    rename_i bm0
    unfold BlockManager.is_complete
    by_cases hz : bm0.total_block_count = 0 ∧ 0 < bm0.all_block_ids.length
    · exfalso
      have := ih.1
      omega
    · exact ⟨by simpa [hz] using ih.1, by simpa using ih.2.1,
        by simpa [BlockManager.get_my_blocks] using ih.2.2⟩

unseal List.merge List.mergeSort in
/-- C4 (counterexample): the claim fails on the code because add_block
accepts ids outside all_block_ids.  The state bmForeign is reachable by
one HAVE bootstrap and two add_block calls, reports is_complete, yet
block f_1 is missing and is returned by get_rarest_missing_blocks. -/
theorem c4_counterexample :
    Reachable bmForeign ∧ bmForeign.is_complete.1 = true ∧
    bmForeign.get_rarest_missing_blocks ≠ [] := by
  refine ⟨?_, by decide, by decide⟩
  exact Reachable.add ("f", 0) [2]
    (Reachable.add ("g", 5) [1]
      (Reachable.update "p" [("f", 0), ("f", 1)] (by decide)
        (Reachable.init "f" 16384)))

/-- C4 (amended): in every reachable state whose owned block ids all
belong to all_block_ids — which is every state not polluted through
add_block with a foreign id — is_complete implies that
get_rarest_missing_blocks is empty. -/
theorem c4_complete_implies_no_missing {bm : BlockManager} (h : Reachable bm)
    (hsub : ∀ id ∈ bm.get_my_blocks, id ∈ bm.all_block_ids)
    (hc : bm.is_complete.1 = true) :
    bm.get_rarest_missing_blocks = [] := by
  obtain ⟨htc, hallnd, hkeysnd⟩ := reachable_invariants h
  have hc2 : 0 < bm.my_blocks.length ∧ bm.my_blocks.length =
      (if bm.total_block_count = 0 ∧ 0 < bm.all_block_ids.length
        then bm.all_block_ids.length else bm.total_block_count) := by
    simpa [BlockManager.is_complete] using hc
  have htc_eq : (if bm.total_block_count = 0 ∧ 0 < bm.all_block_ids.length
      then bm.all_block_ids.length else bm.total_block_count)
      = bm.total_block_count := by
    by_cases hz : bm.total_block_count = 0 ∧ 0 < bm.all_block_ids.length
    · exfalso; omega
    · rw [if_neg hz]
  have hklen : bm.get_my_blocks.length = bm.all_block_ids.length := by
    have h1 : bm.my_blocks.length = bm.total_block_count := by
      rw [hc2.2, htc_eq]
    simp only [BlockManager.get_my_blocks, List.length_map]
    omega
  have hforall : ∀ b ∈ bm.all_block_ids, b ∈ bm.get_my_blocks := by
    have hsubF : bm.get_my_blocks.toFinset ⊆ bm.all_block_ids.toFinset := by
      intro x hx
      rw [List.mem_toFinset] at hx ⊢
      exact hsub x hx
    have hcard1 : bm.get_my_blocks.toFinset.card = bm.get_my_blocks.length :=
      List.toFinset_card_of_nodup hkeysnd
    have hcard2 : bm.all_block_ids.toFinset.card = bm.all_block_ids.length :=
      List.toFinset_card_of_nodup hallnd
    have heq : bm.get_my_blocks.toFinset = bm.all_block_ids.toFinset :=
      Finset.eq_of_subset_of_card_le hsubF (by omega)
    intro b hb
    have hbF : b ∈ bm.get_my_blocks.toFinset := by
      rw [heq, List.mem_toFinset]
      exact hb
    exact List.mem_toFinset.mp hbF
  have hmiss : bm.get_missing_blocks = [] := by
    unfold BlockManager.get_missing_blocks
    by_cases hnil : bm.all_block_ids = []
    · simp [hnil]
    · rw [if_neg hnil]
      rw [List.filter_eq_nil_iff]
      intro a ha
      simp [hforall a ha]
  unfold BlockManager.get_rarest_missing_blocks
  simp [hmiss]

/-- C4 witness: the cleanly loaded complete store has an empty
rarest-missing list. -/
theorem c4_complete_implies_no_missing_witness :
    bmLoaded.get_rarest_missing_blocks = [] :=
  c4_complete_implies_no_missing
    (Reachable.load "f" [9, 9, 9] (Reachable.init "f" 2)) (by decide) (by decide)

end MiniBit

/-! ## C5 — reconstruct_file error handling -/

namespace MiniBit

/-- C5: reconstruct_file refuses an incomplete store with the
incomplete-file error and writes nothing; on a complete store it writes
the owned blocks concatenated in ascending index order, and a failing
write surfaces the io error.  The written order is characterized as a
permutation of the owned ids sorted by numeric index. -/
theorem c5_reconstruct_file (bm : BlockManager) (writeOk : Bool) :
    (bm.is_complete.1 = false →
      bm.reconstruct_file writeOk = BlockManager.ReconResult.incompleteFile) ∧
    (bm.is_complete.1 = true → writeOk = false →
      bm.reconstruct_file writeOk = BlockManager.ReconResult.ioError) ∧
    (bm.is_complete.1 = true → writeOk = true →
      ∃ ids : List BlockId, ids.Perm bm.get_my_blocks ∧
        ids.Pairwise (fun a b => a.2 ≤ b.2) ∧
        bm.reconstruct_file writeOk = BlockManager.ReconResult.written
          ((ids.map (fun id => (alookup id bm.my_blocks).getD [])).flatten)) := by
  refine ⟨?_, ?_, ?_⟩
  · intro h
    simp [BlockManager.reconstruct_file, h]
  · intro h hw
    simp [BlockManager.reconstruct_file, h, hw]
  · intro h hw
    refine ⟨bm.get_my_blocks.mergeSort BlockManager.idxLE,
      List.mergeSort_perm _ _, ?_, ?_⟩
    · have hs : (bm.get_my_blocks.mergeSort BlockManager.idxLE).Pairwise
          (fun a b => BlockManager.idxLE a b = true) :=
        List.sorted_mergeSort
          (fun a b c hab hbc => by
            simp only [BlockManager.idxLE, decide_eq_true_eq] at hab hbc ⊢
            omega)
          (fun a b => by
            simp only [BlockManager.idxLE, Bool.or_eq_true, decide_eq_true_eq]
            omega)
          bm.get_my_blocks
      exact hs.imp (fun hab => by simpa [BlockManager.idxLE] using hab)
    · simp [BlockManager.reconstruct_file, h, hw]

/-- C5 witness: a fresh empty store refuses reconstruction, and the
complete loaded store surfaces the io error on a failing write. -/
theorem c5_reconstruct_file_witness :
    (BlockManager.init "f" 2).reconstruct_file true
      = BlockManager.ReconResult.incompleteFile ∧
    bmLoaded.reconstruct_file false = BlockManager.ReconResult.ioError :=
  ⟨(c5_reconstruct_file (BlockManager.init "f" 2) true).1 (by decide),
   (c5_reconstruct_file bmLoaded false).2.1 (by decide) rfl⟩

end MiniBit

/-! ## C6 — optimistic unchoke retention -/

namespace MiniBit

/-- C6 (counterexample): in the reconciled controller
(src/minibit/unchoke_manager.py) evaluate_peers consults no clock at
all: with six interested peers, the currently optimistic peer u still
interested, and the random draw given by the identity shuffle and
choice index zero, the optimistic slot flips from u to e on this very
call — the previous optimistic peer is not retained, whatever time has
elapsed. -/
theorem c6_counterexample :
    "u" ∈ interested6 ∧ um6.optimistic_unchoke = some "u" ∧
    (um6.evaluate_peers interested6 [] interested6 0).2.optimistic_unchoke
      = some "e" ∧
    (um6.evaluate_peers interested6 [] interested6 0).2.optimistic_unchoke
      ≠ some "u" := by
  refine ⟨by decide, by decide, by decide, by decide⟩

/-- C6 (amended): the claimed retention is implemented only by the
statistics-variant controller (src/peer/unchoke_manager.py): when less
than OPTIMISTIC_INTERVAL has elapsed since the optimistic peer was
selected, _update_optimistic_peer leaves the whole state — the
optimistic slot included — unchanged, for every choice of the random
draw.  The reconciled minibit controller instead redraws the slot on
every evaluation with interested peers. -/
theorem c6_optimistic_retained (um : PeerVariant.UnchokeManager) (t : Int)
    (c : Nat)
    (h : t - um.last_optimistic_change
      < PeerVariant.UnchokeManager.OPTIMISTIC_INTERVAL) :
    um.update_optimistic_peer t c = um := by
  unfold PeerVariant.UnchokeManager.update_optimistic_peer
  rw [if_neg (by omega)]

/-- C6 witness: ten seconds after the last change nothing moves. -/
theorem c6_optimistic_retained_witness :
    ((10 : Int) - (⟨["a"], some "u", [], 0⟩ :
      PeerVariant.UnchokeManager).last_optimistic_change
      < PeerVariant.UnchokeManager.OPTIMISTIC_INTERVAL) ∧
    PeerVariant.UnchokeManager.update_optimistic_peer
      ⟨["a"], some "u", [], 0⟩ 10 0 = ⟨["a"], some "u", [], 0⟩ :=
  ⟨by decide, c6_optimistic_retained ⟨["a"], some "u", [], 0⟩ 10 0 (by decide)⟩

end MiniBit

/-! ## C7 — handling of unknown frame types -/

namespace MiniBit

theorem alookup_mem {α β : Type} [DecidableEq α] {k : α} {v : β} :
    ∀ {m : List (α × β)}, alookup k m = some v → (k, v) ∈ m := by
  intro m
  induction m with
  | nil => intro h; simp [alookup] at h
  | cons e t ih =>
    obtain ⟨k0, v0⟩ := e
    intro h
    by_cases hk : k0 = k
    · subst hk
      have h0 : v0 = v := by simpa [alookup] using h
      subst h0
      simp
    · simp only [alookup, if_neg hk] at h
      simp [ih h]

/-- C7 (counterexample): on the probe node, peer q holds block f_0 and
sits in the connection list; an incoming frame of the unknown type ping
leaves the loop running and the whole node state — peer block map
included — unchanged, unlike a read error, which breaks the loop. -/
theorem c7_counterexample :
    "q" ∈ node7.bm.holders ("f", 0) ∧
    node7.message_loop_step "q" (some pmsgUnknown) true
      = StepResult.continueLoop node7 [] ∧
    node7.message_loop_step "q" none true = StepResult.breakLoop node7 [] := by
  refine ⟨by decide, by decide, by decide⟩

/-- C7 (amended): the message loop silently ignores a frame whose type
field matches none of have / request_block / block_data / choke /
unchoke (the loop continues and no state changes); only a read failure
(I/O, framing or JSON error, modelled by read_message returning none)
breaks the loop, and the cleanup path that then runs purges the peer
from every holder set of the peer block map and from the unchoke
manager.  Holder sets and the fixed unchoke set are duplicate-free in
Python (they are sets), which the purge hypotheses record. -/
theorem c7_unknown_type_ignored (st : NodeState) (p : PeerId) (m : PMsg)
    (w : Bool)
    (h1 : m.tyField ≠ some "have") (h2 : m.tyField ≠ some "request_block")
    (h3 : m.tyField ≠ some "block_data") (h4 : m.tyField ≠ some "choke")
    (h5 : m.tyField ≠ some "unchoke")
    (hnd : ∀ e ∈ st.bm.peer_block_map, e.2.Nodup)
    (hfnd : st.um.fixed_unchoked.Nodup) :
    st.message_loop_step p (some m) w = StepResult.continueLoop st [] ∧
    st.message_loop_step p none w = StepResult.breakLoop st [] ∧
    (∀ b : BlockId, ¬ p ∈ (st.connection_cleanup p).bm.holders b) ∧
    (st.connection_cleanup p).um.is_unchoked p = false := by
  refine ⟨?_, ?_, ?_, ?_⟩
  · simp only [NodeState.message_loop_step]
    rw [if_neg h1, if_neg h2, if_neg h3, if_neg h4, if_neg h5]
  · simp [NodeState.message_loop_step]
  · intro b
    simp only [NodeState.connection_cleanup, BlockManager.holders,
      BlockManager.remove_peer_blocks]
    rw [show alookup b (st.bm.peer_block_map.map
        (fun e => (e.1, if p ∈ e.2 then e.2.erase p else e.2)))
        = (alookup b st.bm.peer_block_map).map
          (fun s => if p ∈ s then s.erase p else s) from
      alookup_map_value b (fun _ s => if p ∈ s then s.erase p else s)
        st.bm.peer_block_map]
    rcases hl : alookup b st.bm.peer_block_map with _ | s
    · simp
    · have hsnd : s.Nodup := hnd (b, s) (alookup_mem hl)
      by_cases hp : p ∈ s
      · simpa [hp] using hsnd.not_mem_erase
      · simp [hp]
  · simp only [NodeState.connection_cleanup, UnchokeManager.is_unchoked,
      UnchokeManager.unregister_peer]
    by_cases hf : p ∈ st.um.fixed_unchoked
    · by_cases ho : st.um.optimistic_unchoke = some p
      · simp [hf, ho, hfnd.not_mem_erase]
      · simp [hf, ho, hfnd.not_mem_erase]
    · by_cases ho : st.um.optimistic_unchoke = some p
      · simp [hf, ho]
      · simp [hf, ho]

/-- C7 witness: cleaning up peer q on the probe node purges it from the
holder set of f_0 and from the unchoke manager. -/
theorem c7_unknown_type_ignored_witness :
    ¬ "q" ∈ (node7.connection_cleanup "q").bm.holders ("f", 0) ∧
    (node7.connection_cleanup "q").um.is_unchoked "q" = false :=
  ⟨(c7_unknown_type_ignored node7 "q" pmsgUnknown true (by decide) (by decide)
      (by decide) (by decide) (by decide) (by decide) (by decide)).2.2.1 ("f", 0),
   (c7_unknown_type_ignored node7 "q" pmsgUnknown true (by decide) (by decide)
      (by decide) (by decide) (by decide) (by decide) (by decide)).2.2.2⟩

end MiniBit

/-! ## C8 — tracker REMOVE command -/

namespace MiniBit

/-- C8 (counterexample): the JSON tracker of src/minibit/tracker.py has
no REMOVE branch: the well-formed REMOVE request is answered with the
unknown-command error response, whose status is neither ok nor fail. -/
theorem c8_counterexample :
    msgRemove.command = some "REMOVE" ∧
    tr8.process_command msgRemove id = Except.ok
      ({ status := "error", message := some "Comando desconhecido", peers := none }, tr8) ∧
    ("error" : String) ≠ "ok" ∧ ("error" : String) ≠ "fail" := by
  refine ⟨rfl, rfl, by decide, by decide⟩

/-- C8 (amended): a REMOVE request to the JSON tracker of
src/minibit/tracker.py falls through to the unknown-command error
response, with the registry unchanged; only the pickle-based tracker of
scripts/start_tracker.py recognizes REMOVE, answering ok exactly when
the peer is registered and fail otherwise. -/
theorem c8_remove_command (tr : Tracker) (msg : TrackerMsg)
    (sample : List (Option String × TrackerEntry) →
      List (Option String × TrackerEntry))
    (h : msg.command = some "REMOVE") :
    tr.process_command msg sample = Except.ok
      ({ status := "error", message := some "Comando desconhecido", peers := none }, tr) ∧
    ∀ (trs : ScriptTracker.Tracker) (pid : String),
      ((trs.handle_remove pid).1 = "ok" ↔ (alookup pid trs.peers).isSome) ∧
      ((trs.handle_remove pid).1 = "ok" ∨ (trs.handle_remove pid).1 = "fail") := by
  constructor
  · simp only [Tracker.process_command]
    rw [if_neg (by rw [h]; decide), if_neg (by rw [h]; decide),
      if_neg (by rw [h]; decide)]
  · intro trs pid
    unfold ScriptTracker.Tracker.handle_remove ScriptTracker.Tracker.remove_peer
    by_cases hp : (alookup pid trs.peers).isSome
    · simp [hp]
    · simp [hp]

/-- C8 witness: the concrete REMOVE request against the registered
tracker yields the unknown-command error, while the script tracker with
an empty registry answers ok or fail (here fail). -/
theorem c8_remove_command_witness :
    tr8.process_command msgRemove id = Except.ok
      ({ status := "error", message := some "Comando desconhecido", peers := none }, tr8) ∧
    ((ScriptTracker.Tracker.handle_remove { peers := [] } "p").1 = "ok" ∨
      (ScriptTracker.Tracker.handle_remove { peers := [] } "p").1 = "fail") :=
  ⟨(c8_remove_command tr8 msgRemove id rfl).1,
   ((c8_remove_command tr8 msgRemove id rfl).2 { peers := [] } "p").2⟩

end MiniBit

/-! ## C9 — the block list is fixed once bootstrapped -/

namespace MiniBit

/-- C9: while total_block_count is positive, no sequence of
update_peer_blocks calls — advertising any sets whatsoever, empty and
differently-sized ones included — changes all_block_ids or
total_block_count: the block list stays as the first bootstrap fixed
it. -/
theorem c9_block_list_fixed :
    ∀ (calls : List (PeerId × List BlockId)) (bm : BlockManager),
      bm.total_block_count ≠ 0 →
      (calls.foldl (fun s pc => s.update_peer_blocks pc.1 pc.2)
        bm).all_block_ids = bm.all_block_ids ∧
      (calls.foldl (fun s pc => s.update_peer_blocks pc.1 pc.2)
        bm).total_block_count = bm.total_block_count
  | [], bm, _ => ⟨rfl, rfl⟩
  | (p, S) :: rest, bm, h => by
    have hb : ¬ (bm.total_block_count = 0 ∧ S ≠ []) := fun hc => h hc.1
    have hstep_all : (bm.update_peer_blocks p S).all_block_ids
        = bm.all_block_ids := by
      simp only [BlockManager.update_peer_blocks]
      rw [if_neg hb]
    have hstep_tc : (bm.update_peer_blocks p S).total_block_count
        = bm.total_block_count := by
      simp only [BlockManager.update_peer_blocks]
      rw [if_neg hb]
    have ih := c9_block_list_fixed rest (bm.update_peer_blocks p S)
      (by rw [hstep_tc]; exact h)
    simp only [List.foldl_cons]
    exact ⟨ih.1.trans hstep_all, ih.2.trans hstep_tc⟩

/-- C9 witness: the loaded store keeps its two-block list through an
empty advertisement and a differently-sized one. -/
theorem c9_block_list_fixed_witness :
    bmLoaded.total_block_count ≠ 0 ∧
    ([(("x" : PeerId), ([] : List BlockId)), ("y", [("f", 9)])].foldl
      (fun s pc => s.update_peer_blocks pc.1 pc.2) bmLoaded).all_block_ids
      = bmLoaded.all_block_ids :=
  ⟨by decide, (c9_block_list_fixed _ bmLoaded (by decide)).1⟩

/-! ## C10 — update_peer_blocks touches only the updated peer -/

theorem mem_holders_foldl_add (p q : PeerId) (hq : q ≠ p) (b : BlockId) :
    ∀ (S : List BlockId) (m : List (BlockId × List PeerId)),
      q ∈ (alookup b (S.foldl (fun m2 b2 =>
        match alookup b2 m2 with
        | some s => dictInsert b2 (setAdd s p) m2
        | none => dictInsert b2 (setAdd [] p) m2) m)).getD []
      ↔ q ∈ (alookup b m).getD []
  | [], m => Iff.rfl
  | b2 :: t, m => by
    simp only [List.foldl_cons]
    rcases halo : alookup b2 m with _ | s
    · have ih := mem_holders_foldl_add p q hq b t (dictInsert b2 (setAdd [] p) m)
      rw [ih]
      by_cases hb2 : b2 = b
      · subst hb2
        rw [alookup_dictInsert_self, halo]
        simp [mem_setAdd_of_ne [] hq]
      · rw [alookup_dictInsert_ne _ _ (fun hh => hb2 hh.symm)]
    · have ih := mem_holders_foldl_add p q hq b t (dictInsert b2 (setAdd s p) m)
      rw [ih]
      by_cases hb2 : b2 = b
      · subst hb2
        rw [alookup_dictInsert_self, halo]
        simp [mem_setAdd_of_ne s hq]
      · rw [alookup_dictInsert_ne _ _ (fun hh => hb2 hh.symm)]

/-- C10: update_peer_blocks for peer p changes no other peer q in any
holder set of the peer block map, and leaves my_blocks — ids and stored
data — untouched. -/
theorem c10_update_frame (bm : BlockManager) (p : PeerId) (S : List BlockId)
    (q : PeerId) (b : BlockId) (hq : q ≠ p) :
    (q ∈ (bm.update_peer_blocks p S).holders b ↔ q ∈ bm.holders b) ∧
    (bm.update_peer_blocks p S).my_blocks = bm.my_blocks := by
  constructor
  · have h2 := mem_holders_foldl_add p q hq b S
      (bm.peer_block_map.map (fun e =>
        (e.1, if p ∈ e.2 ∧ ¬ e.1 ∈ S then e.2.erase p else e.2)))
    have h1 : q ∈ (alookup b (bm.peer_block_map.map (fun e =>
        (e.1, if p ∈ e.2 ∧ ¬ e.1 ∈ S then e.2.erase p else e.2)))).getD []
        ↔ q ∈ (alookup b bm.peer_block_map).getD [] := by
      rw [show alookup b (bm.peer_block_map.map (fun e =>
          (e.1, if p ∈ e.2 ∧ ¬ e.1 ∈ S then e.2.erase p else e.2)))
          = (alookup b bm.peer_block_map).map
            (fun v => if p ∈ v ∧ ¬ b ∈ S then v.erase p else v) from
        alookup_map_value b
          (fun k v => if p ∈ v ∧ ¬ k ∈ S then v.erase p else v)
          bm.peer_block_map]
      rcases alookup b bm.peer_block_map with _ | s
      · simp
      · simp only [Option.map_some', Option.getD_some]
        by_cases hc : p ∈ s ∧ ¬ b ∈ S
        · rw [if_pos hc]
          exact List.mem_erase_of_ne hq
        · rw [if_neg hc]
    exact h2.trans h1
  · rfl

/-- C10 witness: peer z is unaffected when peer p advertises f_0. -/
theorem c10_update_frame_witness :
    ("z" : PeerId) ≠ "p" ∧
    (("z" ∈ (bmLoaded.update_peer_blocks "p" [("f", 0)]).holders ("f", 0))
      ↔ "z" ∈ bmLoaded.holders ("f", 0)) :=
  ⟨by decide, (c10_update_frame bmLoaded "p" [("f", 0)] "z" ("f", 0) (by decide)).1⟩

end MiniBit
